import Mathlib

/-!
# Verification of the HDHomeRun DVR cleanup tool

A shallow embedding of `hdhr_cleanup.py` (version 2.0.0).  Episode records
are Python dictionaries; we model the fields the cleanup logic reads as a
structure with optional fields.  URL strings are modelled as `List Char`,
with the Python `str.split` / `in` operations defined below.  Network I/O
is modelled by oracle functions passed explicitly: the DVR's response to a
deletion command is a function from the extracted identifier to a status
code or transport failure, and the two-level fetch of `get_recordings` is
modelled by a top-level result plus a per-show fetch oracle.  Retention
counts are modelled as `Nat` (the tool's counts are nonnegative episode
counts).
-/

namespace HdhrCleanup

/-- A JSON scalar that can sit in the `FileID` field of a recording:
either a string or a number.  Python truthiness of these values is what
`delete_recording`'s `if not file_id` check observes. -/
inductive FieldVal where
  | str (s : List Char)
  | num (n : Int)
deriving DecidableEq

/-- Python truthiness of a `FieldVal`: the empty string and the number 0
are falsy. -/
def FieldVal.truthy : FieldVal → Bool
  | .str s => !s.isEmpty
  | .num n => n != 0

/-- Python truthiness of an optional `FieldVal` (`None` is falsy). -/
def optTruthy : Option FieldVal → Bool
  | none => false
  | some v => v.truthy

/-- An episode record, as read by the cleanup logic.  Every field the code
accesses with `.get` is optional; `seriesTitle` is the `SeriesTitle` key
attached by `get_recordings`. -/
structure Recording where
  title : Option String
  episodeTitle : Option String
  startTime : Option Int
  cmdURL : Option (List Char)
  playURL : Option (List Char)
  fileID : Option FieldVal
  seriesTitle : Option String := none
deriving DecidableEq

/-- A top-level series entry from `recorded_files.json`. -/
structure Series where
  seriesID : Option String
  title : Option String
  episodesURL : Option String
deriving DecidableEq

/-! ## Python string primitives on `List Char` -/

/-- `isPrefixL sep s`: does `s` start with `sep`? -/
def isPrefixL : List Char → List Char → Bool
  | [], _ => true
  | _ :: _, [] => false
  | a :: as, b :: bs => a == b && isPrefixL as bs

/-- Python's `sep in s` substring test (for nonempty `sep`). -/
def occursIn (sep : List Char) : List Char → Bool
  | [] => false
  | c :: rest => isPrefixL sep (c :: rest) || occursIn sep rest

/-- The text of `s` strictly before the first occurrence of `sep`
(all of `s` when `sep` does not occur).  This is `s.split(sep)[0]`. -/
def takeUntilSep (sep : List Char) : List Char → List Char
  | [] => []
  | c :: rest => if isPrefixL sep (c :: rest) then [] else c :: takeUntilSep sep rest

/-- The text of `s` strictly after the first occurrence of `sep`, or
`none` when `sep` does not occur in `s`. -/
def dropThroughSep (sep : List Char) : List Char → Option (List Char)
  | [] => none
  | c :: rest =>
    if isPrefixL sep (c :: rest) then some ((c :: rest).drop sep.length)
    else dropThroughSep sep rest

/-- The separator `"id="`. -/
def idSep : List Char := ['i', 'd', '=']

/-- The separator `"&"`. -/
def ampSep : List Char := ['&']

/-- `url.split("id=")[1].split("&")[0]` when `"id=" in url`, else `none`.
`split("id=")[1]` is the text after the first `"id="` truncated at the
next `"id="`; `split("&")[0]` then truncates at the first `"&"`. -/
def splitIdValue (url : List Char) : Option (List Char) :=
  match dropThroughSep idSep url with
  | some rest => some (takeUntilSep ampSep (takeUntilSep idSep rest))
  | none => none

/-! ## Identifier extraction and deletion (`extract_recording_id`,
`delete_recording`) -/

/-- `extract_recording_id`: try `CmdURL`, then `PlayURL`, then fall back
to the `FileID` field. -/
def extract_recording_id (r : Recording) : Option FieldVal :=
  match splitIdValue (r.cmdURL.getD []) with
  | some v => some (.str v)
  | none =>
    match splitIdValue (r.playURL.getD []) with
    | some v => some (.str v)
    | none => r.fileID

/-- The DVR's response to a deletion command for a given identifier. -/
inductive NetResult where
  | status (code : Nat)
  | failure
deriving DecidableEq

/-- Outcome of one `delete_recording` call: either no identifier could be
extracted (no network call is made), or a request completed with a status
code, or the transport raised (caught inside `delete_recording`). -/
inductive DeleteOutcome where
  | noId
  | completed (code : Nat)
  | transportError
deriving DecidableEq

/-- The events of one `delete_recording(recording, ...)` call, with the
network modelled by the oracle `net`. -/
def delete_attempt (net : FieldVal → NetResult) (r : Recording) : DeleteOutcome :=
  match extract_recording_id r with
  | none => .noId
  | some fid =>
    if fid.truthy then
      match net fid with
      | .status c => .completed c
      | .failure => .transportError
    else .noId

/-- Whether a `delete_attempt` outcome involved a network call. -/
def networkCalled : DeleteOutcome → Bool
  | .noId => false
  | _ => true

/-- The boolean returned by `delete_recording`: `True` exactly on HTTP
status 200; every other outcome returns `False` (never raises). -/
def delete_recording (net : FieldVal → NetResult) (r : Recording) : Bool :=
  match delete_attempt net r with
  | .completed c => c == 200
  | _ => false

/-! ## Configuration and retention resolution -/

/-- The parts of the loaded configuration the retention logic reads.
`show_overrides` is an association list (Python dict) from exact show
title to retention count. -/
structure Config where
  show_overrides : List (String × Nat)
  default_episodes : Nat

/-- `get_max_episodes_for_show`: command-line override, else per-show
config override (exact title key), else the config default. -/
def get_max_episodes_for_show (cfg : Config) (title : String)
    (override_max : Option Nat) : Nat :=
  match override_max with
  | some m => m
  | none =>
    match cfg.show_overrides.lookup title with
    | some m => m
    | none => cfg.default_episodes

/-! ## Grouping by title -/

/-- The grouping key: `r.get("Title", "Unknown")`. -/
def groupKey (r : Recording) : String := r.title.getD "Unknown"

/-- Append `r` to the group of title `t`, or start a new group at the end
(Python dict `setdefault(title, []).append(r)`, insertion-ordered). -/
def insertGrouped (t : String) (r : Recording) :
    List (String × List Recording) → List (String × List Recording)
  | [] => [(t, [r])]
  | (t', rs) :: rest =>
    if t' = t then (t', rs ++ [r]) :: rest
    else (t', rs) :: insertGrouped t r rest

/-- Group the fetched recordings by exact title, a missing title grouping
under `"Unknown"`.  Group order is order of first appearance; within a
group, episodes keep fetch order. -/
def groupByTitle (rs : List Recording) : List (String × List Recording) :=
  rs.foldl (fun acc r => insertGrouped (groupKey r) r acc) []

/-! ## Sorting by start time -/

/-- The sort key `x.get("StartTime", 0)`. -/
def sortKey (r : Recording) : Int := r.startTime.getD 0

/-- The comparator of `recs.sort(key=lambda x: x.get("StartTime", 0))`. -/
def startLE (a b : Recording) : Bool := decide (sortKey a ≤ sortKey b)

/-- Python `list.sort` is a stable ascending sort; modelled by the
standard stable `List.mergeSort`. -/
def sortByStart (rs : List Recording) : List Recording :=
  rs.mergeSort startLE

/-! ## The per-show deletion set and the cleanup pass -/

/-- The episodes `cleanup_all_shows` selects for deletion in one show
group: nothing unless the group is larger than the resolved count; the
whole (sorted) group when the resolved count is 0; otherwise
`recs[:-show_max]` of the sorted group. -/
def showDeletionSet (cfg : Config) (override_max : Option Nat)
    (title : String) (recs : List Recording) : List Recording :=
  let show_max := get_max_episodes_for_show cfg title override_max
  if recs.length > show_max then
    let sorted := sortByStart recs
    if show_max = 0 then sorted else sorted.take (sorted.length - show_max)
  else []

/-- The deletion loop of one show: every selected episode is attempted in
order, recording each episode's success bit. -/
def processShow (cfg : Config) (net : FieldVal → NetResult)
    (override_max : Option Nat) (title : String) (recs : List Recording) :
    List (Recording × Bool) :=
  (showDeletionSet cfg override_max title recs).map
    (fun r => (r, delete_recording net r))

/-- Process every retained show group in order. -/
def processShows (cfg : Config) (net : FieldVal → NetResult)
    (override_max : Option Nat) (shows : List (String × List Recording)) :
    List (String × List (Recording × Bool)) :=
  shows.map (fun p => (p.1, processShow cfg net override_max p.1 p.2))

/-- Per-character lowercase of a title, Python `str.lower()`. -/
def lowerL (s : String) : List Char := s.toList.map Char.toLower

/-- `target.lower() in title.lower()`: case-insensitive substring test. -/
def containsCI (title target : String) : Bool :=
  occursIn (lowerL target) (lowerL title)

/-- Result of one `cleanup_all_shows` pass: the early return on an empty
fetch, the reported no-match early return, or a completed run with the
per-show deletion attempts. -/
inductive CleanupResult where
  | noRecordings
  | noMatch (target : String)
  | ran (results : List (String × List (Recording × Bool)))
deriving DecidableEq

/-- `cleanup_all_shows(target_show, max_episodes)` on the fetched list
`all_recordings`, with deletion network calls through `net`.  A `None`
or empty `target_show` is falsy in Python, so no filter applies. -/
def cleanup_all_shows (cfg : Config) (net : FieldVal → NetResult)
    (target_show : Option String) (max_episodes : Option Nat)
    (all_recordings : List Recording) : CleanupResult :=
  if all_recordings.isEmpty then .noRecordings
  else
    let shows := groupByTitle all_recordings
    match target_show with
    | none => .ran (processShows cfg net max_episodes shows)
    | some t =>
      if t = "" then .ran (processShows cfg net max_episodes shows)
      else
        let matching := shows.filter (fun p => containsCI p.1 t)
        if matching.isEmpty then .noMatch t
        else .ran (processShows cfg net max_episodes matching)

/-! ## The fetcher (`get_recordings`) -/

/-- A warning event reported by `get_recordings`. -/
inductive FetchWarning where
  | topFailure
  | showFailure (title : Option String)
deriving DecidableEq

/-- One iteration of the per-series loop of `get_recordings`: a series
without a (truthy) `EpisodesURL` is skipped silently; a failed episode
fetch contributes no episodes and one warning; a successful fetch
contributes its episodes with the series title attached to each. -/
def seriesResult (fetchEp : String → Except Unit (List Recording))
    (s : Series) : List Recording × List FetchWarning :=
  match s.episodesURL with
  | none => ([], [])
  | some u =>
    if u = "" then ([], [])
    else
      match fetchEp u with
      | .ok eps => (eps.map (fun e => { e with seriesTitle := s.title }), [])
      | .error _ => ([], [.showFailure s.title])

/-- The per-series loop of `get_recordings`: concatenate every series'
episodes and warnings in order. -/
def fetchSeries (fetchEp : String → Except Unit (List Recording)) :
    List Series → List Recording × List FetchWarning
  | [] => ([], [])
  | s :: rest =>
    ((seriesResult fetchEp s).1 ++ (fetchSeries fetchEp rest).1,
     (seriesResult fetchEp s).2 ++ (fetchSeries fetchEp rest).2)

/-- `get_recordings`: a failed top-level fetch yields no data and a single
report; otherwise walk the series list. -/
def get_recordings (top : Except Unit (List Series))
    (fetchEp : String → Except Unit (List Recording)) :
    List Recording × List FetchWarning :=
  match top with
  | .error _ => ([], [.topFailure])
  | .ok series_list => fetchSeries fetchEp series_list

/-! ## Enumerated (position-tagged) view of the per-show trim, used to
state which episodes (by fetch position) are selected. -/

/-- The stable sort of the position-tagged group, ordered by the
reverse-lexicographic comparator on (start time, fetch position). -/
def sortByStartE (rs : List Recording) : List (Nat × Recording) :=
  rs.enum.mergeSort (List.enumLE startLE)

/-- Position-tagged version of `showDeletionSet`. -/
def showDeletionSetE (cfg : Config) (override_max : Option Nat)
    (title : String) (recs : List Recording) : List (Nat × Recording) :=
  let show_max := get_max_episodes_for_show cfg title override_max
  if recs.length > show_max then
    let sorted := sortByStartE recs
    if show_max = 0 then sorted else sorted.take (sorted.length - show_max)
  else []

/-- `q` is newer than `p`: strictly larger start time, or an equal start
time and a later fetch position (the tie-break of a stable ascending
sort). -/
def newerb (p q : Nat × Recording) : Bool :=
  decide (sortKey p.2 < sortKey q.2) ||
    (decide (sortKey p.2 = sortKey q.2) && decide (p.1 < q.1))

/-- How many episodes of the group are newer than the tagged episode `p`
(larger start time, ties broken by fetch position). -/
def newerCount (rs : List Recording) (p : Nat × Recording) : Nat :=
  rs.enum.countP (newerb p)

end HdhrCleanup

namespace HdhrCleanup

/-! ## Comparator facts -/

theorem startLE_trans : ∀ a b c, startLE a b = true → startLE b c = true →
    startLE a c = true := by
  intro a b c hab hbc
  simp only [startLE, decide_eq_true_eq] at hab hbc ⊢
  omega

theorem startLE_total : ∀ a b, (startLE a b || startLE b a) = true := by
  intro a b
  simp only [startLE, Bool.or_eq_true, decide_eq_true_eq]
  omega

/-! ## C2: retention-count resolution priority -/

/-- C2: `get_max_episodes_for_show` resolves the retention count by strict
priority: a supplied global override (including 0) always wins; otherwise
a per-show override whose exact title is a key of `show_overrides`
(including a configured 0, distinguished from key absence); otherwise the
configured default. -/
theorem get_max_priority (cfg : Config) (title : String) :
    (∀ m : Nat, get_max_episodes_for_show cfg title (some m) = m)
    ∧ (∀ v : Nat, cfg.show_overrides.lookup title = some v →
        get_max_episodes_for_show cfg title none = v)
    ∧ (cfg.show_overrides.lookup title = none →
        get_max_episodes_for_show cfg title none = cfg.default_episodes) := by
  refine ⟨fun m => rfl, fun v hv => ?_, fun h => ?_⟩
  · simp [get_max_episodes_for_show, hv]
  · simp [get_max_episodes_for_show, h]

/-- A concrete configuration with a 0-valued override and a 3-valued
override. -/
def cfgW : Config := { show_overrides := [("Zero Show", 0), ("News", 3)], default_episodes := 5 }

theorem get_max_priority_witness :
    get_max_episodes_for_show cfgW "News" (some 0) = 0
    ∧ get_max_episodes_for_show cfgW "Zero Show" none = 0
    ∧ get_max_episodes_for_show cfgW "News" none = 3
    ∧ get_max_episodes_for_show cfgW "Other" none = 5 :=
  ⟨(get_max_priority cfgW "News").1 0,
   (get_max_priority cfgW "Zero Show").2.1 0 (by decide),
   (get_max_priority cfgW "News").2.1 3 (by decide),
   (get_max_priority cfgW "Other").2.2 (by decide)⟩

/-! ## C6: deletion success is exactly HTTP 200 -/

/-- C6: given an extractable (truthy) identifier, `delete_recording`
returns `true` exactly when the deletion request's status is 200; any
other status and a transport failure both return `false` (the exception
is caught inside, so nothing propagates to the caller). -/
theorem delete_success_iff_200 (net : FieldVal → NetResult) (r : Recording)
    (fid : FieldVal) (hx : extract_recording_id r = some fid)
    (ht : fid.truthy = true) :
    (delete_recording net r = true ↔ net fid = .status 200)
    ∧ (∀ c, c ≠ 200 → net fid = .status c → delete_recording net r = false)
    ∧ (net fid = .failure → delete_recording net r = false) := by
  have hat : delete_attempt net r =
      (match net fid with
       | .status c => .completed c
       | .failure => .transportError) := by
    simp [delete_attempt, hx, ht]
  have hdr : delete_recording net r =
      (match net fid with
       | .status c => c == 200
       | .failure => false) := by
    rw [delete_recording, hat]
    cases net fid <;> rfl
  refine ⟨?_, ?_, ?_⟩
  · rw [hdr]
    cases hnet : net fid with
    | status c => simp
    | failure => simp
  · intro c hc hnet
    rw [hdr, hnet]
    simp [hc]
  · intro hnet
    rw [hdr, hnet]

/-- A recording whose `CmdURL` carries `id=7`. -/
def recW : Recording :=
  { title := some "News", episodeTitle := some "Ep", startTime := some 10,
    cmdURL := some ("http://h/c?cmd=play&id=7&x=1".toList),
    playURL := none, fileID := none }

/-- A network oracle that reports 200 for id `"7"` and 404 otherwise. -/
def netW : FieldVal → NetResult :=
  fun fid => if fid = .str ("7".toList) then .status 200 else .status 404

/-- A network oracle that reports 404 for every identifier. -/
def net404 : FieldVal → NetResult := fun _ => .status 404

/-- A network oracle whose transport always fails. -/
def netFail : FieldVal → NetResult := fun _ => .failure

theorem delete_success_iff_200_witness :
    (delete_recording netW recW = true ↔ netW (.str ("7".toList)) = .status 200)
    ∧ delete_recording net404 recW = false
    ∧ delete_recording netFail recW = false :=
  ⟨(delete_success_iff_200 netW recW (.str ("7".toList)) (by decide) (by decide)).1,
   (delete_success_iff_200 net404 recW (.str ("7".toList)) (by decide) (by decide)).2.1
     404 (by decide) rfl,
   (delete_success_iff_200 netFail recW (.str ("7".toList)) (by decide) (by decide)).2.2 rfl⟩

end HdhrCleanup

namespace HdhrCleanup

/-! ## The strict "newer" order on position-tagged episodes -/

theorem newerb_irrefl (p : Nat × Recording) : newerb p p = false := by
  simp [newerb]

theorem newerb_asymm {p q : Nat × Recording} (h : newerb p q = true) :
    newerb q p = false := by
  cases hq : newerb q p with
  | false => rfl
  | true =>
    exfalso
    simp only [newerb, Bool.or_eq_true, Bool.and_eq_true, decide_eq_true_eq] at h hq
    omega

theorem newerb_of_enumLE {p q : Nat × Recording}
    (h : List.enumLE startLE p q = true) (hne : p.1 ≠ q.1) :
    newerb p q = true := by
  simp only [List.enumLE, startLE] at h
  simp only [newerb, Bool.or_eq_true, Bool.and_eq_true, decide_eq_true_eq]
  by_cases h1 : sortKey p.2 ≤ sortKey q.2
  · by_cases h2 : sortKey q.2 ≤ sortKey p.2
    · simp only [decide_eq_true h1, decide_eq_true h2, if_true] at h
      simp only [decide_eq_true_eq] at h
      omega
    · omega
  · simp only [decide_eq_false h1, Bool.false_eq_true, if_false] at h

/-- The stable sort of the tagged group is strictly descending-free: each
element is strictly older (or equally timed but earlier-fetched) than all
later ones. -/
theorem sortByStartE_pairwise (rs : List Recording) :
    List.Pairwise (fun p q => newerb p q = true) (sortByStartE rs) := by
  have hsor : List.Pairwise (fun a b => List.enumLE startLE a b = true) (sortByStartE rs) :=
    List.sorted_mergeSort (List.enumLE_trans startLE_trans)
      (List.enumLE_total startLE_total) _
  have hperm : (sortByStartE rs).Perm rs.enum := List.mergeSort_perm _ _
  have hnodup : (List.map Prod.fst (sortByStartE rs)).Nodup := by
    have h0 : (List.map Prod.fst rs.enum).Nodup := by
      rw [List.enum_map_fst]
      exact List.nodup_range _
    exact h0.perm (hperm.map Prod.fst).symm
  have hne : List.Pairwise (fun p q : Nat × Recording => p.1 ≠ q.1) (sortByStartE rs) :=
    List.pairwise_map.mp hnodup
  exact (hsor.and hne).imp (fun hpq => newerb_of_enumLE hpq.1 hpq.2)

/-- Position of the first occurrence of `p` in a list. -/
def posOf {α : Type} [DecidableEq α] (p : α) : List α → Nat
  | [] => 0
  | q :: T => if q = p then 0 else posOf p T + 1

/-- In a list that is pairwise ordered by `newerb`, the number of
elements newer than a member `p` determines `p`'s position from the
end. -/
theorem countP_newer_of_pairwise :
    ∀ (S : List (Nat × Recording)),
      List.Pairwise (fun p q => newerb p q = true) S →
      ∀ p ∈ S, S.countP (newerb p) + posOf p S + 1 = S.length := by
  intro S
  induction S with
  | nil => intro _ p hp; cases hp
  | cons a T ih =>
    intro hpw p hp
    rcases List.pairwise_cons.mp hpw with ⟨ha, hT⟩
    by_cases hpa : a = p
    · subst hpa
      rw [List.countP_cons]
      have hlen : T.countP (newerb a) = T.length :=
        List.countP_eq_length.mpr (fun q hq => ha q hq)
      simp [posOf, newerb_irrefl, hlen]
    · have hpT : p ∈ T := by
        rcases List.mem_cons.mp hp with h | h
        · exact absurd h.symm hpa
        · exact h
      have hna : newerb p a = false := newerb_asymm (ha p hpT)
      rw [List.countP_cons]
      have hrec := ih hT p hpT
      simp only [posOf, if_neg hpa, hna, if_false, Bool.false_eq_true, List.length_cons]
      omega

/-- Membership in a prefix, characterised by the first-occurrence
position. -/
theorem mem_take_iff_posOf {α : Type} [DecidableEq α] :
    ∀ (S : List α) (m : Nat) (p : α),
      p ∈ S.take m ↔ p ∈ S ∧ posOf p S < m := by
  intro S
  induction S with
  | nil => intro m p; simp
  | cons a T ih =>
    intro m p
    cases m with
    | zero => simp
    | succ m =>
      rw [List.take_succ_cons]
      by_cases hpa : a = p
      · subst hpa
        simp [posOf]
      · have hne : ¬ p = a := fun h => hpa h.symm
        simp only [List.mem_cons, hne, false_or, posOf, if_neg hpa]
        rw [ih]
        constructor
        · rintro ⟨h1, h2⟩
          exact ⟨h1, by omega⟩
        · rintro ⟨h1, h2⟩
          exact ⟨h1, by omega⟩

/-- The tagged episodes surviving in the first `n - k` positions of the
stable sort are exactly those with at least `k` newer episodes in the
group. -/
theorem mem_sortE_take_iff (rs : List Recording) (k : Nat) (p : Nat × Recording) :
    p ∈ (sortByStartE rs).take (rs.length - k) ↔
      p ∈ rs.enum ∧ k ≤ newerCount rs p := by
  have hperm : (sortByStartE rs).Perm rs.enum := List.mergeSort_perm _ _
  have hlen : (sortByStartE rs).length = rs.length := by
    rw [hperm.length_eq, List.enum_length]
  have hcnt2 : newerCount rs p = (sortByStartE rs).countP (newerb p) :=
    (List.Perm.countP_eq (newerb p) hperm).symm
  rw [mem_take_iff_posOf]
  constructor
  · rintro ⟨hmem, hidx⟩
    have hcnt := countP_newer_of_pairwise _ (sortByStartE_pairwise rs) p hmem
    refine ⟨hperm.mem_iff.mp hmem, ?_⟩
    omega
  · rintro ⟨hmem, hge⟩
    have hmem2 : p ∈ sortByStartE rs := hperm.mem_iff.mpr hmem
    have hcnt := countP_newer_of_pairwise _ (sortByStartE_pairwise rs) p hmem2
    exact ⟨hmem2, by omega⟩

end HdhrCleanup

namespace HdhrCleanup

/-! ## Linking the tagged sort to the untagged sort -/

theorem sortByStart_length (rs : List Recording) :
    (sortByStart rs).length = rs.length :=
  List.length_mergeSort rs

theorem sortByStartE_length (rs : List Recording) :
    (sortByStartE rs).length = rs.length := by
  rw [sortByStartE, List.length_mergeSort, List.enum_length]

theorem sortByStartE_map_snd (rs : List Recording) :
    (sortByStartE rs).map Prod.snd = sortByStart rs :=
  List.mergeSort_enum

theorem showDeletionSetE_map_snd (cfg : Config) (maxE : Option Nat)
    (title : String) (recs : List Recording) :
    (showDeletionSetE cfg maxE title recs).map Prod.snd
      = showDeletionSet cfg maxE title recs := by
  simp only [showDeletionSetE, showDeletionSet]
  by_cases hgt : recs.length > get_max_episodes_for_show cfg title maxE
  · rw [if_pos hgt, if_pos hgt]
    by_cases h0 : get_max_episodes_for_show cfg title maxE = 0
    · rw [if_pos h0, if_pos h0]
      exact sortByStartE_map_snd recs
    · rw [if_neg h0, if_neg h0, List.map_take, sortByStartE_map_snd,
        sortByStartE_length, sortByStart_length]
  · rw [if_neg hgt, if_neg hgt]
    rfl

/-! ## C1: the deletion set of each show group -/

/-- C1: for a show group of size `n` with resolved retention count `k`,
the set of episodes `cleanup_all_shows` selects for deletion is: empty
when `n ≤ k`; the whole group when `k = 0`; and otherwise exactly the
`n - k` episodes that are not among the `k` with the largest start
timestamps, ties between equal (or missing, defaulted to 0) timestamps
broken by original fetch position.  The last conjunct ties the per-group
selection to the full `cleanup_all_shows` pass. -/
theorem cleanup_deletion_set_spec (cfg : Config) (maxE : Option Nat)
    (title : String) (recs : List Recording) (k : Nat)
    (hk : get_max_episodes_for_show cfg title maxE = k) :
    (recs.length ≤ k → showDeletionSet cfg maxE title recs = [])
    ∧ (k = 0 → (showDeletionSet cfg maxE title recs).Perm recs)
    ∧ (0 < k → k < recs.length →
        (showDeletionSet cfg maxE title recs).length = recs.length - k
        ∧ (showDeletionSetE cfg maxE title recs).map Prod.snd
            = showDeletionSet cfg maxE title recs
        ∧ (∀ p : Nat × Recording,
            p ∈ showDeletionSetE cfg maxE title recs ↔
              p ∈ recs.enum ∧ k ≤ newerCount recs p))
    ∧ (∀ (net : FieldVal → NetResult) (rs : List Recording), rs ≠ [] →
        cleanup_all_shows cfg net none maxE rs
          = .ran ((groupByTitle rs).map (fun p =>
              (p.1, (showDeletionSet cfg maxE p.1 p.2).map
                (fun r => (r, delete_recording net r)))))) := by
  refine ⟨?_, ?_, ?_, ?_⟩
  · intro h
    simp [showDeletionSet, hk, Nat.not_lt.mpr h]
  · intro h0
    subst h0
    by_cases hlen : 0 < recs.length
    · simp only [showDeletionSet, hk, gt_iff_lt, if_pos hlen, if_pos rfl]
      exact List.mergeSort_perm _ _
    · have : recs = [] := List.length_eq_zero.mp (by omega)
      subst this
      simp [showDeletionSet, hk]
  · intro hk0 hlt
    have hcond : recs.length > k := hlt
    have hD : showDeletionSet cfg maxE title recs
        = (sortByStart recs).take ((sortByStart recs).length - k) := by
      simp only [showDeletionSet, hk]
      rw [if_pos hcond, if_neg hk0.ne']
    have hE : showDeletionSetE cfg maxE title recs
        = (sortByStartE recs).take ((sortByStartE recs).length - k) := by
      simp only [showDeletionSetE, hk]
      rw [if_pos hcond, if_neg hk0.ne']
    refine ⟨?_, showDeletionSetE_map_snd cfg maxE title recs, ?_⟩
    · rw [hD, List.length_take, sortByStart_length]
      omega
    · intro p
      rw [hE, sortByStartE_length]
      exact mem_sortE_take_iff recs k p
  · intro net rs hrs
    have hne : rs.isEmpty = false := by
      cases rs with
      | nil => exact absurd rfl hrs
      | cons a l => rfl
    simp only [cleanup_all_shows, hne, Bool.false_eq_true, if_false]
    rfl

/-- An all-default configuration with retention 0. -/
def cfg0 : Config := { show_overrides := [], default_episodes := 0 }

/-- Helper for building concrete episode records. -/
def mkRec (t : String) (ts : Int) (i : String) : Recording :=
  { title := some t, episodeTitle := some (t ++ "-ep"), startTime := some ts,
    cmdURL := some (("x?id=" ++ i ++ "&r=1").toList),
    playURL := none, fileID := none }

/-- A 2-episode group. -/
def recsA : List Recording := [mkRec "A" 5 "1", mkRec "A" 3 "2"]

/-- A 3-episode group fetched out of timestamp order. -/
def recsB : List Recording := [mkRec "B" 3 "1", mkRec "B" 1 "2", mkRec "B" 2 "3"]

theorem cleanup_deletion_set_spec_witness :
    showDeletionSet cfgW none "A" recsA = []
    ∧ (showDeletionSet cfg0 none "A" recsA).Perm recsA
    ∧ (showDeletionSet cfgW (some 1) "B" recsB).length = recsB.length - 1
    ∧ ((0, mkRec "B" 3 "1") ∈ showDeletionSetE cfgW (some 1) "B" recsB ↔
        (0, mkRec "B" 3 "1") ∈ recsB.enum ∧ 1 ≤ newerCount recsB (0, mkRec "B" 3 "1"))
    ∧ cleanup_all_shows cfgW netW none none recsA
        = .ran ((groupByTitle recsA).map (fun p =>
            (p.1, (showDeletionSet cfgW none p.1 p.2).map
              (fun r => (r, delete_recording netW r))))) :=
  ⟨(cleanup_deletion_set_spec cfgW none "A" recsA 5 rfl).1 (by decide),
   (cleanup_deletion_set_spec cfg0 none "A" recsA 0 rfl).2.1 rfl,
   ((cleanup_deletion_set_spec cfgW (some 1) "B" recsB 1 rfl).2.2.1
     (by decide) (by decide)).1,
   (((cleanup_deletion_set_spec cfgW (some 1) "B" recsB 1 rfl).2.2.1
     (by decide) (by decide)).2.2 (0, mkRec "B" 3 "1")),
   (cleanup_deletion_set_spec cfgW none "A" recsA 5 rfl).2.2.2 netW recsA
     (List.cons_ne_nil _ _)⟩

end HdhrCleanup

namespace HdhrCleanup

/-! ## C3: the group is stable-sorted oldest-first before trimming -/

/-- Stability of the sort: the episodes with any fixed start-time key
appear in the sorted group in exactly their original fetch order. -/
theorem sortByStart_filter_key (rs : List Recording) (c : Int) :
    (sortByStart rs).filter (fun r => sortKey r == c)
      = rs.filter (fun r => sortKey r == c) := by
  have hall : ∀ a ∈ rs.filter (fun r => sortKey r == c), (sortKey a == c) = true :=
    fun a ha => (List.mem_filter.mp ha).2
  have hpw : List.Pairwise (fun a b => startLE a b = true)
      (rs.filter (fun r => sortKey r == c)) := by
    apply List.pairwise_of_forall_mem_list
    intro a ha b hb
    have h1 : sortKey a = c := by simpa using hall a ha
    have h2 : sortKey b = c := by simpa using (List.mem_filter.mp hb).2
    simp [startLE, h1, h2]
  have hsub : (rs.filter (fun r => sortKey r == c)).Sublist (sortByStart rs) :=
    List.sublist_mergeSort startLE_trans startLE_total hpw (List.filter_sublist rs)
  have hsub2 : (rs.filter (fun r => sortKey r == c)).Sublist
      ((sortByStart rs).filter (fun r => sortKey r == c)) := by
    have h3 := hsub.filter (fun r => sortKey r == c)
    rwa [List.filter_eq_self.mpr hall] at h3
  have hperm : ((sortByStart rs).filter (fun r => sortKey r == c)).Perm
      (rs.filter (fun r => sortKey r == c)) :=
    (List.mergeSort_perm rs startLE).filter _
  exact (hsub2.eq_of_length hperm.length_eq.symm).symm

/-- C3: whenever a show group is larger than its resolved retention
count, the deletion set is computed from the stable ascending sort of the
group by start timestamp (a missing timestamp sorting as 0): that sorted
view is a permutation of the group, is pairwise ascending, and keeps
equal-key (or missing-key) episodes in their original fetch order. -/
theorem group_sorted_before_trim (cfg : Config) (maxE : Option Nat)
    (title : String) (recs : List Recording) (k : Nat)
    (hk : get_max_episodes_for_show cfg title maxE = k)
    (hlt : k < recs.length) :
    (showDeletionSet cfg maxE title recs
        = if k = 0 then sortByStart recs
          else (sortByStart recs).take (recs.length - k))
    ∧ (sortByStart recs).Perm recs
    ∧ List.Pairwise (fun a b => sortKey a ≤ sortKey b) (sortByStart recs)
    ∧ (∀ c : Int, (sortByStart recs).filter (fun r => sortKey r == c)
        = recs.filter (fun r => sortKey r == c)) := by
  refine ⟨?_, List.mergeSort_perm recs startLE, ?_, sortByStart_filter_key recs⟩
  · simp only [showDeletionSet, hk]
    rw [if_pos hlt, sortByStart_length]
  · have h := List.sorted_mergeSort startLE_trans startLE_total recs
    exact h.imp (fun hab => by simpa [startLE] using hab)

/-- A 4-episode group with a duplicated timestamp and a missing
timestamp, fetched out of order. -/
def recsC : List Recording :=
  [mkRec "C" 7 "1", mkRec "C" 2 "2",
   { mkRec "C" 0 "3" with startTime := none }, mkRec "C" 2 "4"]

theorem group_sorted_before_trim_witness :
    (showDeletionSet cfgW (some 1) "C" recsC
        = if (1 : Nat) = 0 then sortByStart recsC
          else (sortByStart recsC).take (recsC.length - 1))
    ∧ (sortByStart recsC).Perm recsC
    ∧ List.Pairwise (fun a b => sortKey a ≤ sortKey b) (sortByStart recsC)
    ∧ (sortByStart recsC).filter (fun r => sortKey r == 2)
        = recsC.filter (fun r => sortKey r == 2) := by
  have h := group_sorted_before_trim cfgW (some 1) "C" recsC 1 rfl (by decide)
  exact ⟨h.1, h.2.1, h.2.2.1, h.2.2.2 2⟩

end HdhrCleanup

namespace HdhrCleanup

/-! ## C4: case-insensitive target filtering -/

/-- C4: with a (nonempty) target filter, exactly the groups whose title
contains the filter case-insensitively are retained; zero matches is
reported as the no-match result and nothing is processed; otherwise every
matching group is processed. -/
theorem cleanup_target_filter (cfg : Config) (net : FieldVal → NetResult)
    (maxE : Option Nat) (t : String) (rs : List Recording)
    (hrs : rs ≠ []) (ht : t ≠ "") :
    ((groupByTitle rs).filter (fun p => containsCI p.1 t) = [] →
        cleanup_all_shows cfg net (some t) maxE rs = .noMatch t)
    ∧ ((groupByTitle rs).filter (fun p => containsCI p.1 t) ≠ [] →
        cleanup_all_shows cfg net (some t) maxE rs
          = .ran (processShows cfg net maxE
              ((groupByTitle rs).filter (fun p => containsCI p.1 t))))
    ∧ (processShows cfg net maxE
          ((groupByTitle rs).filter (fun p => containsCI p.1 t))).map Prod.fst
        = ((groupByTitle rs).filter (fun p => containsCI p.1 t)).map Prod.fst := by
  have hne : rs.isEmpty = false := by
    cases rs with
    | nil => exact absurd rfl hrs
    | cons a l => rfl
  refine ⟨?_, ?_, ?_⟩
  · intro hM
    simp [cleanup_all_shows, hne, ht, hM]
  · intro hM
    have hMf : ((groupByTitle rs).filter (fun p => containsCI p.1 t)).isEmpty = false := by
      cases hMc : (groupByTitle rs).filter (fun p => containsCI p.1 t) with
      | nil => exact absurd hMc hM
      | cons a l => rfl
    simp [cleanup_all_shows, hne, ht, hMf]
  · rw [processShows, List.map_map]
    rfl

/-- Three groups, two of whose titles contain "news" case-insensitively. -/
def recs4 : List Recording :=
  [mkRec "News A" 1 "1", mkRec "News B" 2 "2", mkRec "Sports" 3 "3"]

theorem cleanup_target_filter_witness :
    cleanup_all_shows cfgW netW (some "zzz") none recs4 = .noMatch "zzz"
    ∧ cleanup_all_shows cfgW netW (some "news") none recs4
        = .ran (processShows cfgW netW none
            ((groupByTitle recs4).filter (fun p => containsCI p.1 "news")))
    ∧ (processShows cfgW netW none
          ((groupByTitle recs4).filter (fun p => containsCI p.1 "news"))).map Prod.fst
        = ((groupByTitle recs4).filter (fun p => containsCI p.1 "news")).map Prod.fst :=
  ⟨(cleanup_target_filter cfgW netW none "zzz" recs4
      (List.cons_ne_nil _ _) (by decide)).1 (by decide),
   (cleanup_target_filter cfgW netW none "news" recs4
      (List.cons_ne_nil _ _) (by decide)).2.1 (by decide),
   (cleanup_target_filter cfgW netW none "news" recs4
      (List.cons_ne_nil _ _) (by decide)).2.2⟩

/-! ## C7: every selected episode is attempted, in order, independently -/

/-- A 4-episode group fetched out of order; retention 0 selects all 4. -/
def recsS : List Recording :=
  [mkRec "S" 3 "s3", mkRec "S" 1 "s1", mkRec "S" 4 "s4", mkRec "S" 2 "s2"]

/-- A network oracle on which deleting the second-oldest episode (id
"s2") returns HTTP 500 while every other deletion returns 200. -/
def netS : FieldVal → NetResult :=
  fun fid => if fid = .str ("s2".toList) then .status 500 else .status 200

/-- C7: the deletion set is handed to the executor one episode at a time
in oldest-first order and an attempt is recorded for every selected
episode regardless of earlier outcomes; in the concrete 4-episode
scenario in which the 2nd attempt returns non-200, all 4 attempts are
made, yielding 3 successes and 1 failure; and a full pass processes every
show group, so failures in one show do not prevent later shows. -/
theorem deletion_attempts_exhaustive :
    (∀ (cfg : Config) (net : FieldVal → NetResult) (maxE : Option Nat)
        (title : String) (recs : List Recording),
        (processShow cfg net maxE title recs).map Prod.fst
          = showDeletionSet cfg maxE title recs)
    ∧ (∀ (cfg : Config) (net : FieldVal → NetResult) (maxE : Option Nat)
        (rs : List Recording), rs ≠ [] →
        cleanup_all_shows cfg net none maxE rs
          = .ran (processShows cfg net maxE (groupByTitle rs))
        ∧ (processShows cfg net maxE (groupByTitle rs)).map Prod.fst
            = (groupByTitle rs).map Prod.fst)
    ∧ (processShow cfg0 netS none "S" recsS).map Prod.fst = sortByStart recsS
    ∧ (processShow cfg0 netS none "S" recsS).length = 4
    ∧ (processShow cfg0 netS none "S" recsS).countP (fun a => a.2) = 3
    ∧ (processShow cfg0 netS none "S" recsS).countP (fun a => !a.2) = 1 := by
  have h1 : ∀ (cfg : Config) (net : FieldVal → NetResult) (maxE : Option Nat)
      (title : String) (recs : List Recording),
      (processShow cfg net maxE title recs).map Prod.fst
        = showDeletionSet cfg maxE title recs := by
    intro cfg net maxE title recs
    rw [processShow, List.map_map]
    exact List.map_id _
  have hds : showDeletionSet cfg0 none "S" recsS = sortByStart recsS := by
    simp only [showDeletionSet]
    rw [if_pos (by decide), if_pos (by decide)]
  have hperm : (sortByStart recsS).Perm recsS := List.mergeSort_perm recsS startLE
  refine ⟨h1, ?_, ?_, ?_, ?_, ?_⟩
  · intro cfg net maxE rs hrs
    have hne : rs.isEmpty = false := by
      cases rs with
      | nil => exact absurd rfl hrs
      | cons a l => rfl
    constructor
    · simp only [cleanup_all_shows, hne, Bool.false_eq_true, if_false]
    · rw [processShows, List.map_map]
      rfl
  · rw [h1, hds]
  · rw [processShow, List.length_map, hds, sortByStart_length]
    rfl
  · rw [processShow, List.countP_map, hds,
      List.Perm.countP_eq _ hperm]
    decide
  · rw [processShow, List.countP_map, hds,
      List.Perm.countP_eq _ hperm]
    decide

theorem deletion_attempts_exhaustive_witness :
    cleanup_all_shows cfg0 netS none none recsS
      = .ran (processShows cfg0 netS none (groupByTitle recsS))
    ∧ (processShows cfg0 netS none (groupByTitle recsS)).map Prod.fst
        = (groupByTitle recsS).map Prod.fst :=
  deletion_attempts_exhaustive.2.1 cfg0 netS none recsS (List.cons_ne_nil _ _)

end HdhrCleanup

namespace HdhrCleanup

/-! ## C8: fetch failure policy -/

theorem fetchSeries_append (f : String → Except Unit (List Recording))
    (l1 l2 : List Series) :
    fetchSeries f (l1 ++ l2)
      = ((fetchSeries f l1).1 ++ (fetchSeries f l2).1,
         (fetchSeries f l1).2 ++ (fetchSeries f l2).2) := by
  induction l1 with
  | nil => simp [fetchSeries]
  | cons s rest ih =>
    simp only [List.cons_append, fetchSeries, List.append_eq, ih]
    simp [List.append_assoc]

/-- C8: a failed top-level fetch yields an empty episode list for the
whole cycle and exactly one report; a failed per-show episode fetch is
non-fatal: the overall episode list equals the one obtained with that
show absent, and the failure adds exactly one warning between the
warnings of the earlier and later shows. -/
theorem get_recordings_failure_policy (f : String → Except Unit (List Recording)) :
    get_recordings (.error ()) f = ([], [.topFailure])
    ∧ (∀ (l1 l2 : List Series) (s : Series) (u : String),
        s.episodesURL = some u → u ≠ "" → f u = .error () →
        (get_recordings (.ok (l1 ++ s :: l2)) f).1
            = (get_recordings (.ok (l1 ++ l2)) f).1
        ∧ (get_recordings (.ok (l1 ++ s :: l2)) f).2
            = (fetchSeries f l1).2 ++ .showFailure s.title :: (fetchSeries f l2).2) := by
  constructor
  · rfl
  · intro l1 l2 s u hsu hu hf
    have hsr : seriesResult f s = ([], [.showFailure s.title]) := by
      simp only [seriesResult, hsu, if_neg hu, hf]
    have hmid : fetchSeries f (s :: l2)
        = ((fetchSeries f l2).1, .showFailure s.title :: (fetchSeries f l2).2) := by
      simp only [fetchSeries, hsr]
      rfl
    constructor
    · show (fetchSeries f (l1 ++ s :: l2)).1 = (fetchSeries f (l1 ++ l2)).1
      rw [fetchSeries_append, fetchSeries_append, hmid]
    · show (fetchSeries f (l1 ++ s :: l2)).2 = _
      rw [fetchSeries_append, hmid]

/-- A series whose episode fetch succeeds with one episode, one whose
fetch fails, and the fetch oracle serving them. -/
def serOK : Series := { seriesID := some "s1", title := some "Good", episodesURL := some "http://h/e1" }

def serBad : Series := { seriesID := some "s2", title := some "Bad", episodesURL := some "http://h/e2" }

def fetchW : String → Except Unit (List Recording) :=
  fun u => if u = "http://h/e1" then .ok [mkRec "Good" 1 "g1"] else .error ()

theorem get_recordings_failure_policy_witness :
    get_recordings (.error ()) fetchW = ([], [.topFailure])
    ∧ (get_recordings (.ok [serOK, serBad]) fetchW).1
        = (get_recordings (.ok [serOK]) fetchW).1
    ∧ (get_recordings (.ok [serOK, serBad]) fetchW).2
        = (fetchSeries fetchW [serOK]).2
            ++ .showFailure serBad.title :: (fetchSeries fetchW []).2 :=
  ⟨(get_recordings_failure_policy fetchW).1,
   ((get_recordings_failure_policy fetchW).2 [serOK] [] serBad "http://h/e2"
      rfl (by decide) rfl).1,
   ((get_recordings_failure_policy fetchW).2 [serOK] [] serBad "http://h/e2"
      rfl (by decide) rfl).2⟩

end HdhrCleanup

namespace HdhrCleanup

/-! ## String lemmas about the first occurrence of "id=" -/

theorem occursIn_cons_false {sep : List Char} {c : Char} {rest : List Char}
    (h : occursIn sep (c :: rest) = false) :
    isPrefixL sep (c :: rest) = false ∧ occursIn sep rest = false := by
  simp only [occursIn, Bool.or_eq_false_iff] at h
  exact h

/-- Appending text that does not begin mid-way like `"id="` cannot create
an occurrence of `"id="` at the head of `c :: a'` when there was none:
the boundary characters (`h ≠ 'd'` and `h ≠ '='`) block every straddling
match. -/
theorem isPrefixL_idSep_extend (c : Char) (a' : List Char) (h : Char)
    (w : List Char) (hd : h ≠ 'd') (he : h ≠ '=')
    (hfalse : isPrefixL idSep (c :: a') = false) :
    isPrefixL idSep (c :: (a' ++ h :: w)) = false := by
  cases a' with
  | nil =>
    have hh : ('d' == h) = false := beq_eq_false_iff_ne.mpr hd.symm
    simp [isPrefixL, idSep, hh]
  | cons d a2 =>
    cases a2 with
    | nil =>
      have hh : ('=' == h) = false := beq_eq_false_iff_ne.mpr he.symm
      simp [isPrefixL, idSep, hh]
    | cons e a3 =>
      simp only [isPrefixL, idSep, List.cons_append, Bool.and_true] at hfalse ⊢
      exact hfalse

/-- When `"id="` does not occur in `a`, the first occurrence of `"id="`
in `a ++ "id=" ++ r` is the explicit one, so `split("id=")[1:]` starts at
`r`. -/
theorem dropThroughSep_idSep (a r : List Char) (ha : occursIn idSep a = false) :
    dropThroughSep idSep (a ++ (idSep ++ r)) = some r := by
  induction a with
  | nil =>
    simp [dropThroughSep, isPrefixL, idSep]
  | cons c a2 ih =>
    obtain ⟨h1, h2⟩ := occursIn_cons_false ha
    have hpre : isPrefixL idSep (c :: (a2 ++ (idSep ++ r))) = false :=
      isPrefixL_idSep_extend c a2 'i' ('d' :: '=' :: r) (by decide) (by decide) h1
    show dropThroughSep idSep (c :: (a2 ++ (idSep ++ r))) = some r
    simp only [dropThroughSep, hpre, Bool.false_eq_true, if_false]
    exact ih h2

/-- `"id="` does not occur in s at all: there is nothing to split on. -/
theorem dropThroughSep_eq_none (sep u : List Char)
    (h : occursIn sep u = false) : dropThroughSep sep u = none := by
  induction u with
  | nil => rfl
  | cons c rest ih =>
    obtain ⟨h1, h2⟩ := occursIn_cons_false h
    simp only [dropThroughSep, h1, Bool.false_eq_true, if_false]
    exact ih h2

/-- Truncation at the first `"id="` passes over a block `v` that is free
of `"id="`, provided the next character cannot complete a straddling
match. -/
theorem takeUntilSep_idSep_split (v : List Char) (h : Char) (w : List Char)
    (hd : h ≠ 'd') (he : h ≠ '=') (hv : occursIn idSep v = false) :
    takeUntilSep idSep (v ++ h :: w) = v ++ takeUntilSep idSep (h :: w) := by
  induction v with
  | nil => rfl
  | cons c v2 ih =>
    obtain ⟨h1, h2⟩ := occursIn_cons_false hv
    have hpre : isPrefixL idSep (c :: (v2 ++ h :: w)) = false :=
      isPrefixL_idSep_extend c v2 h w hd he h1
    show takeUntilSep idSep (c :: (v2 ++ h :: w)) = _
    simp only [takeUntilSep, hpre, Bool.false_eq_true, if_false, List.cons_append]
    rw [ih h2]
    rfl

/-- Truncation at the first `"&"` stops exactly at an explicit `'&'` when
`v` contains none. -/
theorem takeUntilSep_amp (v x : List Char) (hv : occursIn ampSep v = false) :
    takeUntilSep ampSep (v ++ '&' :: x) = v := by
  induction v with
  | nil => simp [takeUntilSep, isPrefixL, ampSep]
  | cons c v2 ih =>
    obtain ⟨h1, h2⟩ := occursIn_cons_false hv
    have hc : ('&' == c) = false := by
      simpa [isPrefixL, ampSep] using h1
    have hpre : isPrefixL ampSep (c :: (v2 ++ '&' :: x)) = false := by
      simp [isPrefixL, ampSep, hc]
    show takeUntilSep ampSep (c :: (v2 ++ '&' :: x)) = _
    simp only [takeUntilSep, hpre, Bool.false_eq_true, if_false]
    rw [ih h2]

/-- When the separator never occurs, truncation keeps everything. -/
theorem takeUntilSep_of_not_occurs (sep s : List Char)
    (h : occursIn sep s = false) : takeUntilSep sep s = s := by
  induction s with
  | nil => rfl
  | cons c rest ih =>
    obtain ⟨h1, h2⟩ := occursIn_cons_false h
    simp only [takeUntilSep, h1, Bool.false_eq_true, if_false]
    rw [ih h2]

/-- The `"id="` pattern never occurs in `s`: the URL split yields no
value. -/
theorem splitIdValue_none (u : List Char) (h : occursIn idSep u = false) :
    splitIdValue u = none := by
  simp [splitIdValue, dropThroughSep_eq_none idSep u h]

/-- The value extracted from a URL whose first `"id="` is followed by a
`"id="`-free and `"&"`-free block `v` ending at an `'&'` is exactly `v`. -/
theorem splitIdValue_first_amp (a v b : List Char)
    (ha : occursIn idSep a = false) (hv : occursIn idSep v = false)
    (hvamp : occursIn ampSep v = false) :
    splitIdValue (a ++ (idSep ++ (v ++ '&' :: b))) = some v := by
  simp only [splitIdValue, dropThroughSep_idSep a (v ++ '&' :: b) ha]
  rw [takeUntilSep_idSep_split v '&' b (by decide) (by decide) hv]
  have h0 : takeUntilSep idSep ('&' :: b) = '&' :: takeUntilSep idSep b := by
    simp [takeUntilSep, isPrefixL, idSep]
  rw [h0, takeUntilSep_amp v (takeUntilSep idSep b) hvamp]

/-- The value extracted from a URL whose first `"id="` is followed by an
`"id="`-free and `"&"`-free block `v` ending at the NEXT `"id="` is
exactly `v`: the Python double split truncates at the second `"id="`
even before any `'&'`. -/
theorem splitIdValue_first_id (a v b : List Char)
    (ha : occursIn idSep a = false) (hv : occursIn idSep v = false)
    (hvamp : occursIn ampSep v = false) :
    splitIdValue (a ++ (idSep ++ (v ++ (idSep ++ b)))) = some v := by
  simp only [splitIdValue, dropThroughSep_idSep a (v ++ (idSep ++ b)) ha]
  show some (takeUntilSep ampSep (takeUntilSep idSep (v ++ 'i' :: 'd' :: '=' :: b))) = some v
  rw [takeUntilSep_idSep_split v 'i' ('d' :: '=' :: b) (by decide) (by decide) hv]
  have h0 : takeUntilSep idSep ('i' :: 'd' :: '=' :: b) = [] := by
    simp [takeUntilSep, isPrefixL, idSep]
  rw [h0, List.append_nil, takeUntilSep_of_not_occurs ampSep v hvamp]

end HdhrCleanup

namespace HdhrCleanup

/-! ## C10: a present-but-falsy FileID behaves like a missing one -/

/-- C10: when neither URL field contains `"id="` and `FileID` is present
but falsy (empty string or the number 0), extraction returns that falsy
value, and `delete_recording` reports failure without any network call,
exactly as if `FileID` were absent. -/
theorem falsy_fileID_no_call (net : FieldVal → NetResult) (r : Recording)
    (f : FieldVal)
    (hc : occursIn idSep (r.cmdURL.getD []) = false)
    (hp : occursIn idSep (r.playURL.getD []) = false)
    (hf : r.fileID = some f) (ht : f.truthy = false) :
    extract_recording_id r = some f
    ∧ delete_attempt net r = .noId
    ∧ networkCalled (delete_attempt net r) = false
    ∧ delete_recording net r = false
    ∧ delete_attempt net { r with fileID := none } = .noId := by
  have hex : extract_recording_id r = r.fileID := by
    simp [extract_recording_id, splitIdValue_none _ hc, splitIdValue_none _ hp]
  have hex2 : extract_recording_id { r with fileID := none } = none := by
    simp [extract_recording_id, splitIdValue_none _ hc, splitIdValue_none _ hp]
  have hat : delete_attempt net r = .noId := by
    simp [delete_attempt, hex, hf, ht]
  refine ⟨hex.trans hf, hat, by rw [hat]; rfl,
    by simp [delete_recording, hat], by simp [delete_attempt, hex2]⟩

/-- A record with no `"id="` in its URL and a falsy numeric `FileID`. -/
def recC10 : Recording :=
  { title := some "T", episodeTitle := none, startTime := some 1,
    cmdURL := some ("http://h/play?x=1".toList), playURL := none,
    fileID := some (.num 0) }

theorem falsy_fileID_no_call_witness :
    extract_recording_id recC10 = some (.num 0)
    ∧ delete_attempt netW recC10 = .noId
    ∧ networkCalled (delete_attempt netW recC10) = false
    ∧ delete_recording netW recC10 = false
    ∧ delete_attempt netW { recC10 with fileID := none } = .noId :=
  falsy_fileID_no_call netW recC10 (.num 0) (by decide) (by decide) rfl rfl

/-! ## C5: extraction order, and the "&id=42&" example -/

/-- A record whose `CmdURL` contains `&id=42&` but whose first `"id="`
occurrence sits inside the earlier `seriesid=` parameter. -/
def recC5 : Recording :=
  { title := some "Show", episodeTitle := none, startTime := none,
    cmdURL := some ("http://h/x?seriesid=7&id=42&y=1".toList),
    playURL := some ("http://h/p?id=42&z=1".toList),
    fileID := some (.str ("42".toList)) }

/-- C5 counterexample: this record's `CmdURL` contains `...&id=42&...`,
yet extraction yields `"7"` (the value after the first occurrence of
`"id="`, which sits inside `seriesid=`), not `"42"`. -/
theorem extract_id_counterexample :
    occursIn ("&id=42&".toList) ("http://h/x?seriesid=7&id=42&y=1".toList) = true
    ∧ extract_recording_id recC5 = some (.str ("7".toList))
    ∧ FieldVal.str ("7".toList) ≠ FieldVal.str ("42".toList) :=
  ⟨by decide, by decide, by decide⟩

/-- C5 amended: extraction checks `CmdURL`, then `PlayURL`, then
`FileID`, in that order; from a URL it returns the value following the
FIRST occurrence of `"id="` (so `...&id=42&...` yields `"42"` whenever
that `"id="` is the URL's first), and when no field yields a truthy
identifier `delete_recording` reports failure without a network call. -/
theorem extract_id_checks_in_order :
    (∀ (r : Recording) (a v b : List Char),
        r.cmdURL = some (a ++ (idSep ++ (v ++ '&' :: b))) →
        occursIn idSep a = false → occursIn idSep v = false →
        occursIn ampSep v = false →
        extract_recording_id r = some (.str v))
    ∧ (∀ (r : Recording) (a v b : List Char),
        occursIn idSep (r.cmdURL.getD []) = false →
        r.playURL = some (a ++ (idSep ++ (v ++ '&' :: b))) →
        occursIn idSep a = false → occursIn idSep v = false →
        occursIn ampSep v = false →
        extract_recording_id r = some (.str v))
    ∧ (∀ r : Recording,
        occursIn idSep (r.cmdURL.getD []) = false →
        occursIn idSep (r.playURL.getD []) = false →
        extract_recording_id r = r.fileID)
    ∧ (∀ (net : FieldVal → NetResult) (r : Recording),
        optTruthy (extract_recording_id r) = false →
        delete_attempt net r = .noId
        ∧ networkCalled (delete_attempt net r) = false
        ∧ delete_recording net r = false) := by
  refine ⟨?_, ?_, ?_, ?_⟩
  · intro r a v b hcu ha hv hvamp
    simp [extract_recording_id, hcu, splitIdValue_first_amp a v b ha hv hvamp]
  · intro r a v b hcmd hpu ha hv hvamp
    simp [extract_recording_id, splitIdValue_none _ hcmd, hpu,
      splitIdValue_first_amp a v b ha hv hvamp]
  · intro r h1 h2
    simp [extract_recording_id, splitIdValue_none _ h1, splitIdValue_none _ h2]
  · intro net r hfalse
    have hat : delete_attempt net r = .noId := by
      cases hex : extract_recording_id r with
      | none => simp [delete_attempt, hex]
      | some fid =>
        have ht : fid.truthy = false := by
          rw [hex] at hfalse
          simpa [optTruthy] using hfalse
        simp [delete_attempt, hex, ht]
    exact ⟨hat, by rw [hat]; rfl, by simp [delete_recording, hat]⟩

/-- A record whose `CmdURL`'s first `"id="` is the `&id=42&` one. -/
def recC5w : Recording :=
  { title := none, episodeTitle := none, startTime := none,
    cmdURL := some ("http://h/x?q=1&id=42&y=1".toList),
    playURL := none, fileID := none }

theorem extract_id_checks_in_order_witness :
    extract_recording_id recC5w = some (.str ("42".toList))
    ∧ delete_attempt net404 recC10 = .noId
    ∧ networkCalled (delete_attempt net404 recC10) = false
    ∧ delete_recording net404 recC10 = false :=
  ⟨extract_id_checks_in_order.1 recC5w ("http://h/x?q=1&".toList)
      ("42".toList) ("y=1".toList) (by decide) (by decide) (by decide) (by decide),
   (extract_id_checks_in_order.2.2.2 net404 recC10 (by decide)).1,
   (extract_id_checks_in_order.2.2.2 net404 recC10 (by decide)).2.1,
   (extract_id_checks_in_order.2.2.2 net404 recC10 (by decide)).2.2⟩

/-! ## C9: "id=" is matched as a raw substring -/

/-- A record whose `CmdURL` has `"id="` inside `seriesid=` and again
inside the value that follows it, before any `'&'`. -/
def recC9 : Recording :=
  { title := some "Show", episodeTitle := none, startTime := none,
    cmdURL := some ("seriesid=xid=1&id=42".toList),
    playURL := none, fileID := none }

/-- C9 counterexample: the claim predicts the text between the first
`"id="` (the one inside `seriesid=`) and the next `"&"`, which is
`"xid=1"`; the code returns `"x"`, because Python's
`split("id=")[1]` also truncates at the next `"id="` occurrence. -/
theorem raw_substring_counterexample :
    dropThroughSep idSep ("seriesid=xid=1&id=42".toList)
      = some ("xid=1&id=42".toList)
    ∧ takeUntilSep ampSep ("xid=1&id=42".toList) = "xid=1".toList
    ∧ extract_recording_id recC9 = some (.str ("x".toList))
    ∧ ("x".toList : List Char) ≠ "xid=1".toList :=
  ⟨by decide, by decide, by decide, by decide⟩

/-- A record with an earlier `seriesid=` occurrence and populated
secondary fields. -/
def recC9b : Recording :=
  { title := some "Show", episodeTitle := none, startTime := none,
    cmdURL := some ("http://h/x?seriesid=7&id=42&y=1".toList),
    playURL := some ("http://h/p?id=99&z=1".toList),
    fileID := some (.str ("99".toList)) }

/-- C9 amended: `extract_recording_id` matches `"id="` as a raw
substring: it returns the text after the first occurrence of `"id="`
anywhere in `CmdURL`, truncated at the next occurrence of `"id="` and
then at the next `"&"`; in particular a URL with `seriesid=7` before
`&id=42` yields the earlier occurrence's value `"7"`, and `PlayURL` and
`FileID` are never consulted. -/
theorem raw_substring_extraction :
    (∀ (r : Recording) (a rest : List Char),
        r.cmdURL = some (a ++ (idSep ++ rest)) → occursIn idSep a = false →
        extract_recording_id r
          = some (.str (takeUntilSep ampSep (takeUntilSep idSep rest))))
    ∧ (∀ (r : Recording) (a v b : List Char),
        r.cmdURL = some (a ++ (idSep ++ (v ++ (idSep ++ b)))) →
        occursIn idSep a = false → occursIn idSep v = false →
        occursIn ampSep v = false →
        extract_recording_id r = some (.str v))
    ∧ extract_recording_id recC9b = some (.str ("7".toList)) := by
  refine ⟨?_, ?_, by decide⟩
  · intro r a rest hcu ha
    simp [extract_recording_id, hcu, splitIdValue,
      dropThroughSep_idSep a rest ha]
  · intro r a v b hcu ha hv hvamp
    simp [extract_recording_id, hcu, splitIdValue_first_id a v b ha hv hvamp]

/-- A record whose `CmdURL` value after the first `"id="` runs into a
second `"id="` before any `'&'`. -/
def recC9w : Recording :=
  { title := none, episodeTitle := none, startTime := none,
    cmdURL := some ("p?x=1&id=7id=42&y".toList),
    playURL := none, fileID := none }

theorem raw_substring_extraction_witness :
    extract_recording_id recC5
      = some (.str (takeUntilSep ampSep
          (takeUntilSep idSep ("7&id=42&y=1".toList))))
    ∧ extract_recording_id recC9w = some (.str ("7".toList)) :=
  ⟨raw_substring_extraction.1 recC5 ("http://h/x?series".toList)
      ("7&id=42&y=1".toList) (by decide) (by decide),
   raw_substring_extraction.2.1 recC9w ("p?x=1&".toList) ("7".toList)
      ("42&y".toList) (by decide) (by decide) (by decide) (by decide)⟩

end HdhrCleanup
